import Mathlib

/-!
Shallow embedding of the ingestion pipeline in `pst_parser.py` of the
repository, together with theorems settling the frozen claims about it.

Modelling conventions:
* Python `str` is modelled by Lean `String`; character-level operations work
  on `String.data` (a `List Char`).  All functions are executable.
* Python's `hashlib.sha256(...).hexdigest()` and `hashlib.sha1(...).hexdigest()`
  are external digest primitives; they are modelled as an explicit function
  parameter (`String → String`).  Collision-freedom, where a claim assumes it,
  is an `Function.Injective` hypothesis, exactly the assumption the spec makes.
* Python `list(set(xs))` enumerates the distinct elements of `xs` in an
  implementation-defined (hash-seed dependent) order.  It is modelled as an
  explicit enumeration-function parameter constrained by `ValidEnum`
  (no duplicates, same members); any such function is a possible behaviour of
  the CPython runtime.
* The Supabase client is an external service; its per-call behaviour is an
  oracle (`Storage`) whose operations return `Except`, modelling calls that
  may raise.  The documented conflict semantics of the `emails` upsert
  (`on_conflict="dedupe_hash", ignore_duplicates=True`) are modelled by the
  pure table function `upsertEmailsIgnoreDups`.
-/

/-- Python whitespace for `str.strip` and the regex class `\s` (ASCII range):
space, tab, newline, carriage return, vertical tab, form feed. -/
def isPyWs (c : Char) : Bool :=
  c = ' ' || c = '\t' || c = '\n' || c = '\r' || c = '\x0b' || c = '\x0c'

/-- Python `s.strip()` on the character list: drop whitespace from both ends. -/
def pyStripList (l : List Char) : List Char :=
  ((l.dropWhile isPyWs).reverse.dropWhile isPyWs).reverse

/-- Python `s.strip()`. -/
def pyStrip (s : String) : String := ⟨pyStripList s.data⟩

/-- Python `s.lower()` (ASCII case folding, which covers every input the
claims exercise). -/
def pyLower (s : String) : String := ⟨s.data.map Char.toLower⟩

/-- Python slicing `s[:n]`. -/
def pyTake (n : Nat) (s : String) : String := ⟨s.data.take n⟩

/-- Python truthiness-based `a or b` for an optional string: `None` and the
empty string are falsy. -/
def pyOrStr (a : Option String) (b : String) : String :=
  match a with
  | none => b
  | some s => if s = "" then b else s

/-- `clean_text` (pst_parser.py line 20): `None`/empty input yields the empty
string; otherwise remove every NUL byte and strip whitespace. -/
def clean_text (text : Option String) : String :=
  match text with
  | none => ""
  | some t => if t = "" then "" else pyStrip ⟨t.data.filter (fun c => c ≠ '\x00')⟩

/-- Case-insensitive (ASCII) prefix test used to model `re.IGNORECASE`. -/
def ciIsPrefix (pat : List Char) (s : List Char) : Bool :=
  (pat.map Char.toLower).isPrefixOf (s.map Char.toLower)

/-- Capture for the tail of the regex `\s*(.+)$`: the greedy `\s*` consumes as
much whitespace as possible (including newlines), backtracking so that `(.+)`
can still match at least one non-newline character; the capture is then the
maximal newline-free run. -/
def capAfterWs : List Char → Option (List Char)
  | [] => none
  | c :: rest =>
    if isPyWs c then
      match capAfterWs rest with
      | some g => some g
      | none => if c = '\n' then none else some ((c :: rest).takeWhile (fun d => d ≠ '\n'))
    else
      some ((c :: rest).takeWhile (fun d => d ≠ '\n'))

/-- The suffixes of `s` that start just after a newline: together with `s`
itself these are the positions at which the `re.MULTILINE` anchor `^` can
match. -/
def tailsAfterNewlines : List Char → List (List Char)
  | [] => []
  | c :: r => if c = '\n' then r :: tailsAfterNewlines r else tailsAfterNewlines r

/-- One attempt of the pattern `^{key}:\s*(.+)$` at a line start. -/
def tryFieldAt (key : List Char) (t : List Char) : Option (List Char) :=
  if ciIsPrefix (key ++ [':']) t then capAfterWs (t.drop (key.length + 1)) else none

/-- `extract_header_field` (pst_parser.py line 25): `re.search` of
`^{key}:\s*(.+)$` with `MULTILINE | IGNORECASE` over the header blob; the first
line start (in order) where the pattern matches yields the capture, which is
normalised by `clean_text`.  Empty/`None` headers yield `None`. -/
def extract_header_field (headers : String) (key : String) : Option String :=
  if headers = "" then none
  else
    ((headers.data :: tailsAfterNewlines headers.data).findSome? (tryFieldAt key.data)).map
      (fun g => clean_text (some ⟨g⟩))

/-- Character class `[\w\.-]` of the e-mail regex (ASCII `\w` plus dot and
hyphen). -/
def isEmailChar (c : Char) : Bool :=
  c.isAlphanum || c = '_' || c = '.' || c = '-'

/-- ASCII `\w`. -/
def isWordChar (c : Char) : Bool := c.isAlphanum || c = '_'

/-- Backtracking split of the run after `@` for the regex tail `[\w\.-]+\.\w+`:
the greedy `[\w\.-]+` prefers the longest prefix, so the rightmost dot that is
followed by a word character wins; returns the consumed characters
(prefix, word-run after the dot). -/
def findDotSplit : List Char → Option (List Char × List Char)
  | [] => none
  | c :: rest =>
    match findDotSplit rest with
    | some (b1, w) => some (c :: b1, w)
    | none =>
      match c, rest with
      | '.', d :: _ => if isWordChar d then some ([], rest.takeWhile isWordChar) else none
      | _, _ => none

/-- One anchored attempt of the pattern `[\w\.-]+@[\w\.-]+\.\w+`; returns the
full match.  The local part is the maximal class run (shorter choices cannot
make the mandatory `@` match). -/
def tryEmailAt (l : List Char) : Option (List Char) :=
  let a := l.takeWhile isEmailChar
  if a = [] then none
  else
    match l.drop a.length with
    | '@' :: r2 =>
      match findDotSplit (r2.takeWhile isEmailChar) with
      | some (b1, w) =>
        if b1 = [] then none else some (a ++ '@' :: (b1 ++ '.' :: w))
      | none => none
    | _ => none

/-- Scanner loop of `re.findall` for the e-mail pattern: leftmost matches,
non-overlapping, resuming after each match.  Every step consumes at least one
character (a successful match is nonempty, a failed attempt advances by one),
so a fuel equal to the input length never runs out; the fuel only makes the
recursion structural. -/
def findallEmailsAux : Nat → List Char → List (List Char)
  | 0, _ => []
  | _, [] => []
  | fuel + 1, c :: t =>
    match tryEmailAt (c :: t) with
    | some m => m :: findallEmailsAux fuel ((c :: t).drop m.length)
    | none => findallEmailsAux fuel t

/-- `re.findall(r"[\w\.-]+@[\w\.-]+\.\w+", text)`. -/
def findallEmails (l : List Char) : List (List Char) :=
  findallEmailsAux l.length l

/-- Validity of a model of Python `list(set(xs))`: the enumeration has no
duplicates and exactly the members of `xs`.  Any CPython set-iteration order
satisfies this; nothing more is guaranteed by the runtime. -/
def ValidEnum {α : Type} (f : List α → List α) : Prop :=
  ∀ xs : List α, (f xs).Nodup ∧ ∀ a : α, a ∈ f xs ↔ a ∈ xs

/-- `extract_emails` (pst_parser.py line 34): falsy input gives `[]`;
otherwise the regex matches are lowercased and deduplicated through a set,
whose iteration order is the enumeration parameter `enumS`. -/
def extract_emails (enumS : List String → List String) (text : Option String) : List String :=
  match text with
  | none => []
  | some t =>
    if t = "" then []
    else enumS ((findallEmails t.data).map (fun m => pyLower ⟨m⟩))

/-- `generate_dedupe_hash` (pst_parser.py line 40): digest of the five fields
joined by `|`, with the body reduced to its first 200 characters.  `sha256hex`
models `hashlib.sha256(raw.encode()).hexdigest()`. -/
def generate_dedupe_hash (sha256hex : String → String)
    (sender recipients_str subject sent_time_iso body_text : String) : String :=
  let body_snippet := if body_text = "" then "" else pyTake 200 body_text
  sha256hex (sender ++ "|" ++ recipients_str ++ "|" ++ subject ++ "|" ++ sent_time_iso
    ++ "|" ++ body_snippet)

/-- `extract_domain` (pst_parser.py line 46): `None` for falsy input or input
without `@`; otherwise the lowercased part after the last `@`
(`email.split("@")[-1].lower()`). -/
def extract_domain (email : Option String) : Option String :=
  match email with
  | none => none
  | some e =>
    if e = "" then none
    else if '@' ∈ e.data then
      some (pyLower ⟨(e.data.reverse.takeWhile (fun c => c ≠ '@')).reverse⟩)
    else none

/-- Bracketed-tag tail for the alternative `\[.*?\]` followed by `:`: scanning
the characters after `[`, the non-greedy `.*?` stops at the first `]`
immediately followed by `:`; `.` never matches a newline. -/
def bracketRest : List Char → Option (List Char)
  | [] => none
  | ']' :: ':' :: rest => some rest
  | c :: rest => if c = '\n' then none else bracketRest rest

/-- Case-insensitive literal prefix strip; `none` when the prefix does not
match. -/
def ciStrip (pat : String) (s : List Char) : Option (List Char) :=
  if ciIsPrefix pat.data s then some (s.drop pat.data.length) else none

/-- One application of `re.sub(r'^(re|fwd|fw|\[.*?\]):\s*', '', subject,
flags=re.IGNORECASE)` (anchored at the string start, so at most one
substitution): try the alternatives in order, each requiring the following
`:`, then drop the greedy `\s*` run. -/
def stripMarkerList (s : List Char) : List Char :=
  let attempt :=
    match ciStrip "re:" s with
    | some r => some r
    | none =>
      match ciStrip "fwd:" s with
      | some r => some r
      | none =>
        match ciStrip "fw:" s with
        | some r => some r
        | none =>
          match s with
          | '[' :: rest => bracketRest rest
          | _ => none
  match attempt with
  | some r => r.dropWhile isPyWs
  | none => s

/-- `generate_thread_id` (pst_parser.py line 51): falsy subject maps to the
sentinel `"unknown"`; otherwise digest of the marker-stripped, stripped,
lowercased subject.  `sha1hex` models `hashlib.sha1(clean.encode()).hexdigest()`. -/
def generate_thread_id (sha1hex : String → String) (subject : Option String) : String :=
  match subject with
  | none => "unknown"
  | some s =>
    if s = "" then "unknown"
    else sha1hex (pyLower ⟨pyStripList (stripMarkerList s.data)⟩)

/-- Lexicographic (code-point) string comparison, the ordering Python's
`sorted` uses on `str`. -/
def lexLe : List Char → List Char → Bool
  | [], _ => true
  | _ :: _, [] => false
  | a :: as, b :: bs => if a < b then true else if a = b then lexLe as bs else false

/-- Boolean form of Python string `<=`. -/
def strLe (a b : String) : Bool := lexLe a.data b.data

/-- Python `sorted(xs)` for a list of strings: sorting by the code-point
order.  Python uses a stable sort; on a total order any two sorts of the same
multiset agree elementwise, so insertion sort is an exact model. -/
def pySorted (xs : List String) : List String :=
  List.insertionSort (fun a b => strLe a b = true) xs

/-- Python `",".join(xs)`. -/
def joinComma : List String → String
  | [] => ""
  | x :: xs => xs.foldl (fun acc s => acc ++ "," ++ s) x

/-- Python `str.capitalize()`: first character uppercased, the rest
lowercased. -/
def pyCapitalize (s : String) : String :=
  match s.data with
  | [] => ""
  | c :: rest => ⟨Char.toUpper c :: rest.map Char.toLower⟩

/-- Python `s.endswith(suffix)`. -/
def pyEndsWith (s suffix : String) : Bool :=
  suffix.data.isSuffixOf s.data

/-- The two digest primitives of `hashlib` used by the parser, abstracted:
`sha256hex` models `sha256(..).hexdigest()`, `sha1hex` models
`sha1(..).hexdigest()`. -/
structure Digests where
  sha256hex : String → String
  sha1hex : String → String

/-- The CPython set-enumeration orders in effect for the two element types on
which the parser calls `list(set(..))`. -/
structure PyEnv where
  enumS : List String → List String
  enumP : List (Option String) → List (Option String)

/-- A `PyEnv` is a possible CPython behaviour when both enumerations are
valid set enumerations. -/
def PyEnv.Valid (env : PyEnv) : Prop :=
  ValidEnum env.enumS ∧ ValidEnum env.enumP

/-- Attachment metadata entry built at pst_parser.py line 211. -/
structure AttachmentMeta where
  filename : String
  size : Nat
  index : Nat
deriving DecidableEq

/-- The dictionary appended to `self.batch` at pst_parser.py line 220. -/
structure EmailRecord where
  import_id : Option String
  message_id : Option String
  dedupe_hash : String
  thread_id : String
  references_header : Option String
  subject : String
  body : String
  from_name : String
  sender_email : Option String
  recipient_emails : List String
  cc_emails : List String
  sent_at : Option String
  timestamp_missing : Bool
  folder_path : String
  attachments : List AttachmentMeta
  transport_headers : String
  processed_by_ai : Bool
  related_company_id : Option Nat
deriving DecidableEq

/-- Behaviour oracle for the external Supabase client: each operation either
returns the service's response data or raises (`Except.error`), mirroring the
calls issued in `_process_message` and `_flush_batch`.  Company rows are
identified by their `id` value (modelled as `Nat`); a select/insert response is
the list of ids in `resp.data`. -/
structure Storage where
  compSelect : String → Except String (List Nat)
  compInsert : String → String → Except String (List Nat)
  contactUpsert : String → Nat → String → Except String Unit
  threadUpsert : String → String → Nat → Option String → Except String Unit
  emailsUpsert : List EmailRecord → Except String Unit

/-- A delivery timestamp as exposed by the archive binding: the result of
`astimezone(timezone.utc).isoformat()` when that call succeeds, and the bare
`isoformat()` fallback used by the inner `except` branch. -/
structure PffTime where
  utcIso : String
  rawIso : String
  astimezoneOk : Bool
deriving DecidableEq

/-- The `sent_at` string produced from a present delivery time
(pst_parser.py lines 128-133). -/
def timeToSentAt (t : PffTime) : String :=
  if t.astimezoneOk then t.utcIso else t.rawIso

/-- One attachment of the archive binding: `name` is the value of the
duck-typed name accessor when one exists, `size` the value of `get_size` when
present (pst_parser.py lines 203-213). -/
structure PffAttachment where
  name : Option String
  size : Option Nat
deriving DecidableEq

/-- A message as exposed by the `pypff` accessor contract.  `html_body` is the
already-decoded HTML fallback (`decode(errors='ignore')` never raises; a
`None` `html_body` makes the `.decode` attribute access raise, handled by the
inner `except`, so both are folded into `Option String`).  `broken` injects an
accessor failure: a message whose processing raises at the message boundary,
the failure class `_parse_folder` catches. -/
structure PffMessage where
  subject : Option String
  transport_headers : Option String
  plain_text_body : Option String
  html_body : Option String
  sender_name : Option String
  delivery_time : Option PffTime
  attachments : List PffAttachment
  broken : Bool
deriving DecidableEq

/-- Mutable state of a `PSTParser` instance: `import_id`, `batch_size`,
`stats` and `batch` from `__init__`, plus the optional Supabase client. -/
structure ParserState where
  import_id : Option String
  batch_size : Nat
  batch : List EmailRecord
  processed : Nat
  errors : Nat
  supabase : Option Storage

/-- Fresh parser state as built by `PSTParser.__init__` (default
`batch_size=50`). -/
def initParser (importId : Option String) (sb : Option Storage)
    (batchSize : Nat := 50) : ParserState :=
  { import_id := importId, batch_size := batchSize, batch := [],
    processed := 0, errors := 0, supabase := sb }

/-- Steps 2-3 of the entity-linking `try` block (pst_parser.py lines 179-195),
entered with the company id resolved by step 1.  Python truthiness of
`if related_company_id:` is `≠ None` and `≠ 0`; an exception in the contact or
thread upsert is caught by the enclosing `except`, *after* which
`related_company_id` keeps the value already assigned. -/
def entityPhase2 (st : Storage) (related : Option Nat) (senderEmail : Option String)
    (senderName : String) (externalEmails : List String) (threadId subject : String)
    (sentAt : Option String) : Option Nat :=
  match related with
  | none => none
  | some i =>
    if i = 0 then some i
    else
      let contactResult : Except String Unit :=
        match senderEmail with
        | some s => if s ≠ "" ∧ s ∈ externalEmails then st.contactUpsert s i senderName
                    else Except.ok ()
        | none => Except.ok ()
      match contactResult with
      | Except.error _ => some i
      | Except.ok _ =>
        match st.threadUpsert threadId subject i sentAt with
        | Except.error _ => some i
        | Except.ok _ => some i

/-- The entity-linking `try` block (pst_parser.py lines 162-197): company
lookup by domain, insert-on-miss with derived name, then contact and thread
upserts.  Returns the final value of `related_company_id`; an exception at any
call is caught and the value assigned so far survives. -/
def entityLink (st : Storage) (domain : String) (senderEmail : Option String)
    (senderName : String) (externalEmails : List String) (threadId subject : String)
    (sentAt : Option String) : Option Nat :=
  match st.compSelect domain with
  | Except.error _ => none
  | Except.ok data =>
    match data with
    | id :: _ =>
      entityPhase2 st (some id) senderEmail senderName externalEmails threadId subject sentAt
    | [] =>
      let comp_name := pyCapitalize ⟨domain.data.takeWhile (fun c => c ≠ '.')⟩
      match st.compInsert comp_name domain with
      | Except.error _ => none
      | Except.ok d2 =>
        match d2 with
        | id :: _ =>
          entityPhase2 st (some id) senderEmail senderName externalEmails threadId subject sentAt
        | [] =>
          entityPhase2 st none senderEmail senderName externalEmails threadId subject sentAt

/-- Filter of the external-participant comprehension (pst_parser.py line
154): keep a participant when it is truthy and does not end in
`@futureelectronics.com`. -/
def extFilter (e : Option String) : Option String :=
  match e with
  | some s => if s ≠ "" ∧ pyEndsWith s "@futureelectronics.com" = false then some s else none
  | none => none

/-- The deduplicated participant list and its external sublist
(pst_parser.py lines 153-154): `list(set([sender_email] + to_emails +
cc_emails))` enumerated by the runtime order `enumP`, then filtered by
`extFilter`. -/
def externalParticipants (enumP : List (Option String) → List (Option String))
    (senderEmail : Option String) (toEmails ccEmails : List String) : List String :=
  let all_participants := enumP (senderEmail :: (toEmails.map some ++ ccEmails.map some))
  all_participants.filterMap extFilter

/-- The attachment metadata loop (pst_parser.py lines 200-215): cleaned name
with positional fallback `attachment_{i}`, size defaulting to 0. -/
def buildAttachments (atts : List PffAttachment) : List AttachmentMeta :=
  atts.enum.map (fun p =>
    { filename :=
        (let n := clean_text p.2.name
         if n = "" then "attachment_" ++ toString p.1 else n),
      size := p.2.size.getD 0,
      index := p.1 })

/-- The dedupe-hash call site (pst_parser.py lines 139-145): sender falls back
to `"unknown"`, the recipient list is sorted and comma-joined, a missing
`sent_at` becomes the sentinel `"missing"` (both via Python `or`, so `None`
and the empty string fall back). -/
def messageDedupeHash (sha256hex : String → String) (senderEmail : Option String)
    (toEmails : List String) (subject : String) (sentAt : Option String)
    (bodyText : String) : String :=
  generate_dedupe_hash sha256hex (pyOrStr senderEmail "unknown")
    (joinComma (pySorted toEmails)) subject (pyOrStr sentAt "missing") bodyText

/-- Record construction of `_process_message` (pst_parser.py lines 99-244):
extraction, identity, timestamps, dedupe/threading, entity linking, and the
assembled dictionary.  `sb` is `self.supabase`, `importId` is
`self.import_id`. -/
def buildRecord (dg : Digests) (env : PyEnv) (sb : Option Storage)
    (importId : Option String) (msg : PffMessage) (folderPath : String) : EmailRecord :=
  let subject := clean_text msg.subject
  let headers := clean_text msg.transport_headers
  let body0 := clean_text msg.plain_text_body
  let body_text := if body0 = "" then (match msg.html_body with
                                       | some h => h
                                       | none => "") else body0
  let msg_id := extract_header_field headers "Message-ID"
  let references := extract_header_field headers "References"
  let header_from := extract_header_field headers "From"
  let sender_emails := extract_emails env.enumS header_from
  let sender_email := sender_emails.head?
  let sender_name := clean_text msg.sender_name
  let header_to := extract_header_field headers "To"
  let header_cc := extract_header_field headers "Cc"
  let to_emails := extract_emails env.enumS header_to
  let cc_emails := extract_emails env.enumS header_cc
  let sent_at : Option String :=
    match msg.delivery_time with
    | some dt => some (timeToSentAt dt)
    | none => none
  let timestamp_missing : Bool :=
    match msg.delivery_time with
    | some _ => false
    | none => true
  let content_hash := messageDedupeHash dg.sha256hex sender_email to_emails subject
    sent_at body_text
  let thread_id := generate_thread_id dg.sha1hex (some subject)
  let related_company_id : Option Nat :=
    match sb with
    | none => none
    | some st =>
      let external_emails := externalParticipants env.enumP sender_email to_emails cc_emails
      match external_emails with
      | [] => none
      | primary :: _ =>
        match extract_domain (some primary) with
        | none => none
        | some domain =>
          if domain = "" then none
          else entityLink st domain sender_email sender_name external_emails thread_id
            subject sent_at
  { import_id := importId,
    message_id := msg_id,
    dedupe_hash := content_hash,
    thread_id := thread_id,
    references_header := references,
    subject := subject,
    body := pyTake 50000 body_text,
    from_name := sender_name,
    sender_email := sender_email,
    recipient_emails := to_emails,
    cc_emails := cc_emails,
    sent_at := sent_at,
    timestamp_missing := timestamp_missing,
    folder_path := folderPath,
    attachments := buildAttachments msg.attachments,
    transport_headers := headers,
    processed_by_ai := false,
    related_company_id := related_company_id }

/-- `_flush_batch` (pst_parser.py lines 252-265): return unchanged when the
batch is empty or no client is configured; otherwise attempt the bulk upsert,
catch any error, and clear the batch either way. -/
def flushBatch (p : ParserState) : ParserState :=
  if p.batch.isEmpty then p
  else
    match p.supabase with
    | none => p
    | some st =>
      match st.emailsUpsert p.batch with
      | Except.ok _ => { p with batch := [] }
      | Except.error _ => { p with batch := [] }

/-- Buffering tail of `_process_message` (pst_parser.py lines 246-250):
append the record, count it, and flush when the batch size reaches
`self.batch_size`. -/
def processMessage (dg : Digests) (env : PyEnv) (p : ParserState) (msg : PffMessage)
    (folderPath : String) : ParserState :=
  let record := buildRecord dg env p.supabase p.import_id msg folderPath
  let p1 := { p with batch := p.batch ++ [record], processed := p.processed + 1 }
  if p.batch_size ≤ p1.batch.length then flushBatch p1 else p1

/-- `_process_message` as a fallible call: a broken message raises before any
state change; otherwise the call succeeds with the updated state. -/
def processMessageE (dg : Digests) (env : PyEnv) (p : ParserState) (msg : PffMessage)
    (folderPath : String) : Except String ParserState :=
  if msg.broken then Except.error "message accessor failure"
  else Except.ok (processMessage dg env p msg folderPath)

/-- The per-message loop body of `_parse_folder` (pst_parser.py lines 88-93):
`try/except` around `_process_message`, incrementing the error tally on
failure. -/
def parseFolderStep (dg : Digests) (env : PyEnv) (folderPath : String)
    (p : ParserState) (msg : PffMessage) : ParserState :=
  match processMessageE dg env p msg folderPath with
  | Except.ok p' => p'
  | Except.error _ => { p with errors := p.errors + 1 }

mutual
/-- A folder of the archive: name, messages, subfolders.  The subfolder
collection is a dedicated list type so that folder trees admit plain mutual
structural recursion. -/
inductive PffFolder where
  | mk (name : String) (messages : List PffMessage) (subfolders : PffFolderList)

/-- A list of subfolders. -/
inductive PffFolderList where
  | nil
  | cons (f : PffFolder) (fs : PffFolderList)
end

mutual
/-- `_parse_folder` (pst_parser.py lines 87-97): process every message of the
folder with per-message error isolation, then recurse into each subfolder with
the extended path. -/
def parseFolder (dg : Digests) (env : PyEnv) (p : ParserState) (folder : PffFolder)
    (pathStr : String) : ParserState :=
  match folder with
  | .mk _ msgs subs =>
    parseFolders dg env (msgs.foldl (parseFolderStep dg env pathStr) p) subs pathStr

/-- The subfolder loop of `_parse_folder` (pst_parser.py lines 95-97). -/
def parseFolders (dg : Digests) (env : PyEnv) (p : ParserState) (fs : PffFolderList)
    (pathStr : String) : ParserState :=
  match fs with
  | .nil => p
  | .cons f rest =>
    match f with
    | .mk name _ _ =>
      parseFolders dg env (parseFolder dg env p f (pathStr ++ "/" ++ name)) rest pathStr
end

/-- `PSTParser.parse` (pst_parser.py lines 80-85): walk the root folder (when
one exists) starting at path `"Root"`, then force the final flush; the
returned stats are the `processed`/`errors` fields of the result. -/
def parse (dg : Digests) (env : PyEnv) (p : ParserState) (root : Option PffFolder) :
    ParserState :=
  match root with
  | some folder => flushBatch (parseFolder dg env p folder "Root")
  | none => flushBatch p

mutual
/-- Number of messages of the folder tree that process successfully. -/
def goodCount : PffFolder → Nat
  | .mk _ msgs subs => (msgs.filter (fun m => ¬ m.broken)).length + goodCountList subs

/-- Successful-message count over a subfolder list. -/
def goodCountList : PffFolderList → Nat
  | .nil => 0
  | .cons f fs => goodCount f + goodCountList fs
end

mutual
/-- Number of messages of the folder tree whose processing raises. -/
def brokenCount : PffFolder → Nat
  | .mk _ msgs subs => (msgs.filter (fun m => m.broken)).length + brokenCountList subs

/-- Failing-message count over a subfolder list. -/
def brokenCountList : PffFolderList → Nat
  | .nil => 0
  | .cons f fs => brokenCount f + brokenCountList fs
end

/-- Documented conflict semantics of the bulk upsert issued by `_flush_batch`
(`on_conflict="dedupe_hash", ignore_duplicates=True`, pst_parser.py lines
257-261) against the `emails` table: rows are attempted in order; a row whose
`dedupe_hash` is already present (including one inserted earlier in the same
batch) is ignored, leaving the existing row untouched; genuinely new hashes
are appended. -/
def upsertEmailsIgnoreDups (table : List EmailRecord) (batch : List EmailRecord) :
    List EmailRecord :=
  batch.foldl
    (fun t r => if r.dedupe_hash ∈ t.map EmailRecord.dedupe_hash then t else t ++ [r])
    table

/-- The sequence of flushes a pipeline run performs against the `emails`
table: one `upsertEmailsIgnoreDups` per flushed batch. -/
def runFlushes (table : List EmailRecord) (batches : List (List EmailRecord)) :
    List EmailRecord :=
  batches.foldl upsertEmailsIgnoreDups table

/-- A field that does not contain the `|` delimiter of the dedupe-hash raw
string. -/
abbrev BarFree (s : String) : Prop := '|' ∉ s.data

/-- Identity digests: injective, hence a collision-free digest instance for
witnesses. -/
def wDigests : Digests := ⟨fun s => s, fun s => s⟩

/-- First-occurrence set enumeration, one valid CPython iteration order. -/
def wEnv : PyEnv := ⟨List.dedup, List.dedup⟩

/-- Reversed set enumeration, another valid CPython iteration order. -/
def revEnumP : List (Option String) → List (Option String) :=
  fun xs => xs.dedup.reverse

/-- Storage oracle whose calls all succeed; company lookups resolve id 7. -/
def wStorageOk : Storage :=
  { compSelect := fun _ => Except.ok [7],
    compInsert := fun _ _ => Except.ok [9],
    contactUpsert := fun _ _ _ => Except.ok (),
    threadUpsert := fun _ _ _ _ => Except.ok (),
    emailsUpsert := fun _ => Except.ok () }

/-- Storage oracle where the company lookup succeeds (id 7) but the thread
upsert raises: an entity-resolution failure after the company id was
assigned. -/
def wStorageThreadFail : Storage :=
  { wStorageOk with threadUpsert := fun _ _ _ _ => Except.error "storage unavailable" }

/-- Storage oracle where the company lookup itself raises. -/
def wStorageSelectFail : Storage :=
  { wStorageOk with compSelect := fun _ => Except.error "storage unavailable" }

/-- A delivery time fixture. -/
def wTime : PffTime :=
  { utcIso := "2024-01-01T00:00:00+00:00", rawIso := "2024-01-01T00:00:00",
    astimezoneOk := true }

/-- A well-formed undated message with an external sender. -/
def wMsg : PffMessage :=
  { subject := some "Re: Quote for LCD",
    transport_headers :=
      some "From: sales@nissan.com\nTo: buyer@futureelectronics.com\nCc: carl@nissan.com",
    plain_text_body := some "hello body",
    html_body := none,
    sender_name := some "Sales Person",
    delivery_time := none,
    attachments := [],
    broken := false }

/-- The same message with a different Cc address and a delivery time. -/
def wMsgCc2 : PffMessage :=
  { wMsg with
    transport_headers :=
      some "From: sales@nissan.com\nTo: buyer@futureelectronics.com\nCc: dora@honda.com" }

/-- `wMsg` with a delivery time present. -/
def wMsgT : PffMessage := { wMsg with delivery_time := some wTime }

/-- A message whose accessors raise. -/
def wBroken : PffMessage := { wMsg with broken := true }

/-- Set enumeration that lists a chosen element first: one more valid CPython
iteration order, showing any member can come first. -/
def frontEnumP (a : Option String) : List (Option String) → List (Option String) :=
  fun xs => if a ∈ xs.dedup then a :: xs.dedup.erase a else xs.dedup

/-- The dedupe hashes of the rows of an `emails` table. -/
def tableHashes (t : List EmailRecord) : List String :=
  t.map EmailRecord.dedupe_hash

/-- A minimal `emails` row with a given dedupe hash, for concrete examples. -/
def mkRec (h : String) : EmailRecord :=
  { import_id := none, message_id := none, dedupe_hash := h, thread_id := "t",
    references_header := none, subject := "s", body := "b", from_name := "f",
    sender_email := none, recipient_emails := [], cc_emails := [], sent_at := none,
    timestamp_missing := true, folder_path := "Root", attachments := [],
    transport_headers := "", processed_by_ai := false, related_company_id := none }

theorem lexLe_total : ∀ a b : List Char, lexLe a b = true ∨ lexLe b a = true := by
  intro a
  induction a with
  | nil => intro b; left; rfl
  | cons x xs ih =>
    intro b
    cases b with
    | nil => right; rfl
    | cons y ys =>
      rcases lt_trichotomy x y with h | h | h
      · left; simp [lexLe, h]
      · subst h
        rcases ih ys with h' | h'
        · left; simp [lexLe, h']
        · right; simp [lexLe, h']
      · right; simp [lexLe, h]

theorem lexLe_antisymm : ∀ a b : List Char, lexLe a b = true → lexLe b a = true → a = b := by
  intro a
  induction a with
  | nil =>
    intro b _ hba
    cases b with
    | nil => rfl
    | cons y ys => simp [lexLe] at hba
  | cons x xs ih =>
    intro b hab hba
    cases b with
    | nil => simp [lexLe] at hab
    | cons y ys =>
      rcases lt_trichotomy x y with h | h | h
      · simp [lexLe, h, asymm h, (ne_of_lt h).symm] at hba
      · subst h
        simp only [lexLe, lt_irrefl, if_false, if_pos rfl] at hab hba
        exact congrArg (x :: ·) (ih ys hab hba)
      · simp [lexLe, h, asymm h, (ne_of_lt h).symm] at hab

theorem lexLe_trans : ∀ a b c : List Char,
    lexLe a b = true → lexLe b c = true → lexLe a c = true := by
  intro a
  induction a with
  | nil => intro b c _ _; rfl
  | cons x xs ih =>
    intro b c hab hbc
    cases b with
    | nil => simp [lexLe] at hab
    | cons y ys =>
      cases c with
      | nil => simp [lexLe] at hbc
      | cons z zs =>
        rcases lt_trichotomy x y with hxy | hxy | hxy
        · rcases lt_trichotomy y z with hyz | hyz | hyz
          · simp [lexLe, lt_trans hxy hyz]
          · subst hyz; simp [lexLe, hxy]
          · simp [lexLe, hyz, asymm hyz, (ne_of_lt hyz).symm] at hbc
        · subst hxy
          rcases lt_trichotomy x z with hyz | hyz | hyz
          · simp [lexLe, hyz]
          · subst hyz
            simp only [lexLe, lt_irrefl, if_false, if_pos rfl] at hab hbc ⊢
            exact ih ys zs hab hbc
          · simp [lexLe, hyz, asymm hyz, (ne_of_lt hyz).symm] at hbc
        · simp [lexLe, hxy, asymm hxy, (ne_of_lt hxy).symm] at hab

theorem pySorted_perm_eq {l₁ l₂ : List String} (h : l₁.Perm l₂) : pySorted l₁ = pySorted l₂ := by
  haveI : IsTotal String (fun a b => strLe a b = true) :=
    ⟨fun a b => lexLe_total a.data b.data⟩
  haveI : IsTrans String (fun a b => strLe a b = true) :=
    ⟨fun a b c hab hbc => lexLe_trans a.data b.data c.data hab hbc⟩
  haveI : IsAntisymm String (fun a b => strLe a b = true) :=
    ⟨fun a b hab hba => String.ext (lexLe_antisymm a.data b.data hab hba)⟩
  exact List.eq_of_perm_of_sorted
    ((List.perm_insertionSort _ l₁).trans (h.trans (List.perm_insertionSort _ l₂).symm))
    (List.sorted_insertionSort _ l₁) (List.sorted_insertionSort _ l₂)

theorem takeWhile_bar (a r : List Char) (h : '|' ∉ a) :
    (a ++ '|' :: r).takeWhile (fun c => c ≠ '|') = a := by
  induction a with
  | nil => simp [List.takeWhile]
  | cons c cs ih =>
    have hc : c ≠ '|' := fun hcc => h (hcc ▸ List.mem_cons_self c cs)
    have hcs : '|' ∉ cs := fun hm => h (List.mem_cons_of_mem c hm)
    simp only [List.cons_append, List.takeWhile_cons]
    rw [if_pos (by simp [hc])]
    exact congrArg (c :: ·) (ih hcs)

theorem dropWhile_bar (a r : List Char) (h : '|' ∉ a) :
    (a ++ '|' :: r).dropWhile (fun c => c ≠ '|') = '|' :: r := by
  induction a with
  | nil => simp [List.dropWhile]
  | cons c cs ih =>
    have hc : c ≠ '|' := fun hcc => h (hcc ▸ List.mem_cons_self c cs)
    have hcs : '|' ∉ cs := fun hm => h (List.mem_cons_of_mem c hm)
    simp only [List.cons_append, List.dropWhile_cons]
    rw [if_pos (by simp [hc])]
    exact ih hcs

theorem bar_split_inj {a₁ a₂ r₁ r₂ : List Char} (h₁ : '|' ∉ a₁) (h₂ : '|' ∉ a₂)
    (h : a₁ ++ '|' :: r₁ = a₂ ++ '|' :: r₂) : a₁ = a₂ ∧ r₁ = r₂ := by
  have ha : a₁ = a₂ := by
    have := congrArg (List.takeWhile (fun c => c ≠ '|')) h
    rwa [takeWhile_bar _ _ h₁, takeWhile_bar _ _ h₂] at this
  subst ha
  exact ⟨rfl, by simpa using List.append_cancel_left h⟩


theorem raw_concat_inj {s₁ r₁ j₁ t₁ e₁ s₂ r₂ j₂ t₂ e₂ : String}
    (hs₁ : BarFree s₁) (hr₁ : BarFree r₁) (hj₁ : BarFree j₁) (ht₁ : BarFree t₁)
    (hs₂ : BarFree s₂) (hr₂ : BarFree r₂) (hj₂ : BarFree j₂) (ht₂ : BarFree t₂)
    (h : s₁ ++ "|" ++ r₁ ++ "|" ++ j₁ ++ "|" ++ t₁ ++ "|" ++ e₁
       = s₂ ++ "|" ++ r₂ ++ "|" ++ j₂ ++ "|" ++ t₂ ++ "|" ++ e₂) :
    s₁ = s₂ ∧ r₁ = r₂ ∧ j₁ = j₂ ∧ t₁ = t₂ ∧ e₁ = e₂ := by
  have hd := congrArg String.data h
  simp only [String.data_append, show ("|" : String).data = ['|'] from rfl,
    List.append_assoc, List.singleton_append] at hd
  obtain ⟨hs, hd⟩ := bar_split_inj hs₁ hs₂ hd
  obtain ⟨hr, hd⟩ := bar_split_inj hr₁ hr₂ hd
  obtain ⟨hj, hd⟩ := bar_split_inj hj₁ hj₂ hd
  obtain ⟨ht, hd⟩ := bar_split_inj ht₁ ht₂ hd
  exact ⟨String.ext hs, String.ext hr, String.ext hj, String.ext ht, String.ext hd⟩

theorem snippet_eq_take (b : String) : (if b = "" then "" else pyTake 200 b) = pyTake 200 b := by
  by_cases hb : b = ""
  · subst hb; rfl
  · simp [hb]

theorem take200_padded (c : Char) :
    pyTake 200 (⟨List.replicate 200 'a' ++ [c]⟩ : String) = ⟨List.replicate 200 'a'⟩ :=
  congrArg String.mk (List.take_left' (List.length_replicate 200 'a'))

theorem padded_ne :
    (⟨List.replicate 200 'a' ++ ['x']⟩ : String) ≠ ⟨List.replicate 200 'a' ++ ['y']⟩ := by
  intro h
  have hd : List.replicate 200 'a' ++ ['x'] = List.replicate 200 'a' ++ ['y'] :=
    congrArg String.data h
  have : (['x'] : List Char) = ['y'] := List.append_cancel_left hd
  exact absurd this (by decide)

/-- C4 (amended): the dedupe hash is deterministic and invariant to
recipient-list ordering, and, under an injective digest, two hashes of
delimiter-free fields agree exactly when sender, recipients CSV, subject,
sentAt and the first 200 characters of the body agree; in particular a change
confined to the body beyond its 200-character prefix does not change the
hash. -/
theorem dedupe_hash_order_invariant_and_field_sensitive :
    ∀ H : String → String, Function.Injective H →
      ((∀ (se : Option String) (subj : String) (t : Option String) (b : String)
          (tos tos' : List String), tos.Perm tos' →
          messageDedupeHash H se tos subj t b = messageDedupeHash H se tos' subj t b) ∧
       (∀ s₁ r₁ j₁ t₁ b₁ s₂ r₂ j₂ t₂ b₂ : String,
          BarFree s₁ → BarFree r₁ → BarFree j₁ → BarFree t₁ →
          BarFree s₂ → BarFree r₂ → BarFree j₂ → BarFree t₂ →
          (generate_dedupe_hash H s₁ r₁ j₁ t₁ b₁ = generate_dedupe_hash H s₂ r₂ j₂ t₂ b₂ ↔
            (s₁ = s₂ ∧ r₁ = r₂ ∧ j₁ = j₂ ∧ t₁ = t₂ ∧ pyTake 200 b₁ = pyTake 200 b₂)))) := by
  intro H hH
  constructor
  · intro se subj t b tos tos' hperm
    unfold messageDedupeHash
    rw [pySorted_perm_eq hperm]
  · intro s₁ r₁ j₁ t₁ b₁ s₂ r₂ j₂ t₂ b₂ hs₁ hr₁ hj₁ ht₁ hs₂ hr₂ hj₂ ht₂
    unfold generate_dedupe_hash
    simp only [snippet_eq_take]
    constructor
    · intro h
      exact raw_concat_inj hs₁ hr₁ hj₁ ht₁ hs₂ hr₂ hj₂ ht₂ (hH h)
    · rintro ⟨h1, h2, h3, h4, h5⟩
      rw [h1, h2, h3, h4, h5]

theorem dedupe_hash_order_invariant_and_field_sensitive_witness :
    Function.Injective (fun s : String => s) ∧
    List.Perm ["b@x.co", "a@x.co"] ["a@x.co", "b@x.co"] ∧
    messageDedupeHash (fun s => s) (some "s@d.co") ["b@x.co", "a@x.co"] "subj" none "body"
      = messageDedupeHash (fun s => s) (some "s@d.co") ["a@x.co", "b@x.co"] "subj" none "body" ∧
    BarFree "s1" ∧
    (generate_dedupe_hash (fun s => s) "s1" "r1" "j1" "t1" "b1"
        = generate_dedupe_hash (fun s => s) "s1" "r1" "j1" "t1" "b1" ↔
      ("s1" = "s1" ∧ "r1" = "r1" ∧ "j1" = "j1" ∧ "t1" = "t1" ∧
        pyTake 200 "b1" = pyTake 200 "b1")) :=
  ⟨fun _ _ h => h, by decide,
    (dedupe_hash_order_invariant_and_field_sensitive (fun s => s) (fun _ _ h => h)).1
      (some "s@d.co") "subj" none "body" _ _ (by decide),
    by decide,
    (dedupe_hash_order_invariant_and_field_sensitive (fun s => s) (fun _ _ h => h)).2
      "s1" "r1" "j1" "t1" "b1" "s1" "r1" "j1" "t1" "b1"
      (by decide) (by decide) (by decide) (by decide)
      (by decide) (by decide) (by decide) (by decide)⟩

/-- C4 counterexample: with the identity digest (which is injective, i.e.
collision-free), two bodies that agree on their first 200 characters but
differ at position 201 are different values of the body field yet produce the
same dedupe hash, refuting the claim that a change in any of the five fields
produces a different hash. -/
theorem dedupe_hash_body_truncation_cex :
    Function.Injective (fun s : String => s) ∧
    (⟨List.replicate 200 'a' ++ ['x']⟩ : String) ≠ ⟨List.replicate 200 'a' ++ ['y']⟩ ∧
    messageDedupeHash (fun s => s) (some "s@d.co") ["r@d.co"] "subj"
        (some "2024-01-01T00:00:00+00:00") ⟨List.replicate 200 'a' ++ ['x']⟩
      = messageDedupeHash (fun s => s) (some "s@d.co") ["r@d.co"] "subj"
        (some "2024-01-01T00:00:00+00:00") ⟨List.replicate 200 'a' ++ ['y']⟩ := by
  refine ⟨fun _ _ h => h, padded_ne, ?_⟩
  unfold messageDedupeHash generate_dedupe_hash
  rw [snippet_eq_take, snippet_eq_take, take200_padded, take200_padded]

/-- C5: the message dedupe hash is the digest of the five fields — sender
(with `"unknown"` fallback), sorted comma-joined recipients, subject, sentAt
ISO string, and the first 200 characters of the body — joined by the `|`
delimiter; a missing `sentAt` is replaced by the literal sentinel
`"missing"`, so two undated duplicates hash identically; and the hash depends
on the body only through its 200-character prefix. -/
theorem dedupe_hash_structure :
    ∀ (H : String → String) (se : Option String) (tos : List String) (subj : String)
      (t : Option String) (b : String),
      (messageDedupeHash H se tos subj t b =
        H (pyOrStr se "unknown" ++ "|" ++ joinComma (pySorted tos) ++ "|" ++ subj ++ "|"
           ++ pyOrStr t "missing" ++ "|" ++ pyTake 200 b)) ∧
      (messageDedupeHash H se tos subj none b
        = messageDedupeHash H se tos subj (some "missing") b) ∧
      (∀ b' : String, pyTake 200 b = pyTake 200 b' →
        messageDedupeHash H se tos subj t b = messageDedupeHash H se tos subj t b') := by
  intro H se tos subj t b
  refine ⟨?_, ?_, ?_⟩
  · unfold messageDedupeHash generate_dedupe_hash
    rw [snippet_eq_take]
  · rfl
  · intro b' h
    unfold messageDedupeHash generate_dedupe_hash
    rw [snippet_eq_take, snippet_eq_take, h]

theorem dedupe_hash_structure_witness :
    pyTake 200 (⟨List.replicate 200 'a' ++ ['x']⟩ : String)
        = pyTake 200 (⟨List.replicate 200 'a' ++ ['y']⟩ : String) ∧
    messageDedupeHash (fun s => s) (some "s@d.co") ["r@d.co"] "subj" none
        ⟨List.replicate 200 'a' ++ ['x']⟩
      = messageDedupeHash (fun s => s) (some "s@d.co") ["r@d.co"] "subj" none
        ⟨List.replicate 200 'a' ++ ['y']⟩ := by
  have h2 : pyTake 200 (⟨List.replicate 200 'a' ++ ['x']⟩ : String)
      = pyTake 200 (⟨List.replicate 200 'a' ++ ['y']⟩ : String) := by
    rw [take200_padded, take200_padded]
  exact ⟨h2,
    (dedupe_hash_structure (fun s => s) (some "s@d.co") ["r@d.co"] "subj" none
      ⟨List.replicate 200 'a' ++ ['x']⟩).2.2 ⟨List.replicate 200 'a' ++ ['y']⟩ h2⟩

/-- C6: under a collision-free digest, the subjects `"Quote for LCD"`,
`"Re: Quote for LCD"` and `"Fwd: Quote for LCD"` all map to the same
`threadId` under `generate_thread_id`, while `"Quote for LCD pt2"` maps to a
different one. -/
theorem thread_id_groups_reply_markers :
    ∀ H1 : String → String, Function.Injective H1 →
      (generate_thread_id H1 (some "Re: Quote for LCD")
          = generate_thread_id H1 (some "Quote for LCD") ∧
       generate_thread_id H1 (some "Fwd: Quote for LCD")
          = generate_thread_id H1 (some "Quote for LCD") ∧
       generate_thread_id H1 (some "Quote for LCD pt2")
          ≠ generate_thread_id H1 (some "Quote for LCD")) := by
  intro H1 hH
  refine ⟨rfl, rfl, ?_⟩
  intro h
  have h' : H1 (pyLower ⟨pyStripList (stripMarkerList ("Quote for LCD pt2").data)⟩)
      = H1 (pyLower ⟨pyStripList (stripMarkerList ("Quote for LCD").data)⟩) := h
  exact absurd (hH h') (by decide)

theorem thread_id_groups_reply_markers_witness :
    Function.Injective (fun s : String => s) ∧
    generate_thread_id (fun s => s) (some "Re: Quote for LCD")
      = generate_thread_id (fun s => s) (some "Quote for LCD") ∧
    generate_thread_id (fun s => s) (some "Fwd: Quote for LCD")
      = generate_thread_id (fun s => s) (some "Quote for LCD") ∧
    generate_thread_id (fun s => s) (some "Quote for LCD pt2")
      ≠ generate_thread_id (fun s => s) (some "Quote for LCD") :=
  ⟨fun _ _ h => h, thread_id_groups_reply_markers (fun s => s) (fun _ _ h => h)⟩

/-- C7: in every record the pipeline constructs, `timestamp_missing` is true
exactly when `sent_at` is `None`; and whenever a delivery time is available,
`sent_at` carries its ISO rendering and the flag is false. -/
theorem timestamp_missing_iff_sent_at_none :
    ∀ (dg : Digests) (env : PyEnv) (sb : Option Storage) (iid : Option String)
      (msg : PffMessage) (path : String),
      ((buildRecord dg env sb iid msg path).timestamp_missing = true ↔
        (buildRecord dg env sb iid msg path).sent_at = none) ∧
      (∀ t : PffTime, msg.delivery_time = some t →
        (buildRecord dg env sb iid msg path).sent_at = some (timeToSentAt t) ∧
        (buildRecord dg env sb iid msg path).timestamp_missing = false) := by
  intro dg env sb iid msg path
  cases hdt : msg.delivery_time with
  | none =>
    constructor
    · simp [buildRecord, hdt]
    · intro t ht
      exact absurd ht (by simp)
  | some t0 =>
    constructor
    · simp [buildRecord, hdt]
    · intro t ht
      cases ht
      constructor
      · simp [buildRecord, hdt]
      · simp [buildRecord, hdt]

theorem timestamp_missing_iff_sent_at_none_witness :
    wMsgT.delivery_time = some wTime ∧
    (buildRecord wDigests wEnv none none wMsgT "Root").sent_at = some (timeToSentAt wTime) ∧
    (buildRecord wDigests wEnv none none wMsgT "Root").timestamp_missing = false :=
  ⟨rfl,
    ((timestamp_missing_iff_sent_at_none wDigests wEnv none none wMsgT "Root").2
      wTime rfl).1,
    ((timestamp_missing_iff_sent_at_none wDigests wEnv none none wMsgT "Root").2
      wTime rfl).2⟩

/-- C10: the dedupe hash of a constructed record depends only on the subject,
the bodies, the delivery time, and the extracted `From` and `To` header
fields; the `Cc` addresses never enter the hash input, so two messages that
agree on those components — whatever their `Cc` headers — receive the same
`dedupe_hash`. -/
theorem dedupe_hash_ignores_cc :
    ∀ (dg : Digests) (env : PyEnv) (sb : Option Storage) (iid : Option String)
      (path : String) (m1 m2 : PffMessage),
      m1.subject = m2.subject →
      m1.plain_text_body = m2.plain_text_body →
      m1.html_body = m2.html_body →
      m1.delivery_time = m2.delivery_time →
      extract_header_field (clean_text m1.transport_headers) "From"
        = extract_header_field (clean_text m2.transport_headers) "From" →
      extract_header_field (clean_text m1.transport_headers) "To"
        = extract_header_field (clean_text m2.transport_headers) "To" →
      (buildRecord dg env sb iid m1 path).dedupe_hash
        = (buildRecord dg env sb iid m2 path).dedupe_hash := by
  intro dg env sb iid path m1 m2 hs hpb hhb hdt hFrom hTo
  simp only [buildRecord]
  rw [hs, hpb, hhb, hdt, hFrom, hTo]

theorem dedupe_hash_ignores_cc_witness :
    wMsg.transport_headers ≠ wMsgCc2.transport_headers ∧
    (buildRecord wDigests wEnv (some wStorageOk) none wMsg "Root").cc_emails
      ≠ (buildRecord wDigests wEnv (some wStorageOk) none wMsgCc2 "Root").cc_emails ∧
    (buildRecord wDigests wEnv (some wStorageOk) none wMsg "Root").dedupe_hash
      = (buildRecord wDigests wEnv (some wStorageOk) none wMsgCc2 "Root").dedupe_hash :=
  ⟨by decide, by decide,
    dedupe_hash_ignores_cc wDigests wEnv (some wStorageOk) none "Root" wMsg wMsgCc2
      rfl rfl rfl rfl (by decide) (by decide)⟩


theorem validEnum_revEnumP : ValidEnum revEnumP := by
  intro xs
  constructor
  · exact (List.nodup_reverse).mpr (List.nodup_dedup xs)
  · intro a
    unfold revEnumP
    rw [List.mem_reverse, List.mem_dedup]

theorem validEnum_frontEnumP (a : Option String) : ValidEnum (frontEnumP a) := by
  intro xs
  unfold frontEnumP
  by_cases h : a ∈ xs.dedup
  · rw [if_pos h]
    constructor
    · rw [List.nodup_cons]
      exact ⟨fun hmem => ((List.nodup_dedup xs).mem_erase_iff.mp hmem).1 rfl,
        List.Nodup.erase a (List.nodup_dedup xs)⟩
    · intro b
      by_cases hb : b = a
      · subst hb
        simp [List.mem_dedup.mp h]
      · rw [List.mem_cons, (List.nodup_dedup xs).mem_erase_iff, List.mem_dedup]
        simp [hb]
  · rw [if_neg h]
    exact ⟨List.nodup_dedup xs, fun b => List.mem_dedup⟩

theorem mem_participants_iff {se : Option String} {tos ccs : List String} {p : String} :
    (some p : Option String) ∈ se :: (tos.map some ++ ccs.map some) ↔
      some p = se ∨ p ∈ tos ∨ p ∈ ccs := by
  constructor
  · intro hq
    rcases List.mem_cons.mp hq with h1 | h1
    · exact Or.inl h1
    · rcases List.mem_append.mp h1 with h2 | h2
      · rcases List.mem_map.mp h2 with ⟨x, hx, hxq⟩
        exact Or.inr (Or.inl (Option.some_injective _ hxq ▸ hx))
      · rcases List.mem_map.mp h2 with ⟨x, hx, hxq⟩
        exact Or.inr (Or.inr (Option.some_injective _ hxq ▸ hx))
  · intro hp
    rcases hp with hp | hp | hp
    · exact hp ▸ List.mem_cons_self _ _
    · exact List.mem_cons_of_mem _ (List.mem_append_left _ (List.mem_map_of_mem some hp))
    · exact List.mem_cons_of_mem _ (List.mem_append_right _ (List.mem_map_of_mem some hp))

/-- C3 (amended): the primary external address is whichever external
participant happens to come first in the set-iteration order of the
deduplicated participant set — the sender receives no preferential treatment.
Under every valid iteration order the selection is empty exactly when no
participant is external and otherwise yields an external participant, and for
every external participant (sender or not) some valid iteration order makes
it the selected primary. -/
theorem primary_external_first_in_iteration_order :
    (∀ enumP : List (Option String) → List (Option String), ValidEnum enumP →
      ∀ (se : Option String) (tos ccs : List String),
        (externalParticipants enumP se tos ccs = [] ↔
          ∀ p : String, (some p = se ∨ p ∈ tos ∨ p ∈ ccs) →
            ¬(p ≠ "" ∧ pyEndsWith p "@futureelectronics.com" = false)) ∧
        (∀ (p : String) (rest : List String),
          externalParticipants enumP se tos ccs = p :: rest →
          (p ≠ "" ∧ pyEndsWith p "@futureelectronics.com" = false) ∧
          (some p = se ∨ p ∈ tos ∨ p ∈ ccs))) ∧
    (∀ (se : Option String) (tos ccs : List String) (p : String),
      (some p = se ∨ p ∈ tos ∨ p ∈ ccs) →
      (p ≠ "" ∧ pyEndsWith p "@futureelectronics.com" = false) →
      ∃ enumP, ValidEnum enumP ∧
        ∃ rest, externalParticipants enumP se tos ccs = p :: rest) := by
  constructor
  · intro enumP hE se tos ccs
    have hmem : ∀ a : Option String,
        a ∈ enumP (se :: (tos.map some ++ ccs.map some)) ↔
          a ∈ se :: (tos.map some ++ ccs.map some) :=
      fun a => (hE (se :: (tos.map some ++ ccs.map some))).2 a
    constructor
    · unfold externalParticipants
      rw [List.filterMap_eq_nil_iff]
      constructor
      · intro h p hp hcond
        have hpmem : (some p : Option String) ∈ enumP (se :: (tos.map some ++ ccs.map some)) :=
          (hmem (some p)).mpr (mem_participants_iff.mpr hp)
        have hnone := h (some p) hpmem
        have hsome : extFilter (some p) = some p := by
          show (if p ≠ "" ∧ pyEndsWith p "@futureelectronics.com" = false
              then some p else none) = some p
          exact if_pos hcond
        rw [hsome] at hnone
        exact Option.noConfusion hnone
      · intro hall a ha
        cases a with
        | none => rfl
        | some q =>
          have hqp : some q = se ∨ q ∈ tos ∨ q ∈ ccs :=
            mem_participants_iff.mp ((hmem (some q)).mp ha)
          show (if q ≠ "" ∧ pyEndsWith q "@futureelectronics.com" = false
              then some q else none) = none
          exact if_neg (hall q hqp)
    · intro p rest heq
      have hp : p ∈ externalParticipants enumP se tos ccs := heq ▸ List.mem_cons_self p rest
      unfold externalParticipants at hp
      rcases List.mem_filterMap.mp hp with ⟨a, ha, hfa⟩
      cases a with
      | none => exact Option.noConfusion hfa
      | some q =>
        have hfa' : (if q ≠ "" ∧ pyEndsWith q "@futureelectronics.com" = false
            then some q else none) = some p := hfa
        by_cases hcond : q ≠ "" ∧ pyEndsWith q "@futureelectronics.com" = false
        · rw [if_pos hcond] at hfa'
          have hqp : q = p := Option.some_injective _ hfa'
          subst hqp
          exact ⟨hcond, mem_participants_iff.mp ((hmem (some q)).mp ha)⟩
        · rw [if_neg hcond] at hfa'
          exact Option.noConfusion hfa'
  · intro se tos ccs p hp hcond
    refine ⟨frontEnumP (some p), validEnum_frontEnumP (some p), ?_⟩
    have hps : (some p : Option String) ∈ (se :: (tos.map some ++ ccs.map some)).dedup := by
      rw [List.mem_dedup]
      exact mem_participants_iff.mpr hp
    have hsome : extFilter (some p) = some p := by
      show (if p ≠ "" ∧ pyEndsWith p "@futureelectronics.com" = false
          then some p else none) = some p
      exact if_pos hcond
    unfold externalParticipants frontEnumP
    rw [if_pos hps, List.filterMap_cons, hsome]
    exact ⟨_, rfl⟩

theorem primary_external_first_in_iteration_order_witness :
    ((some "b@y.com" : Option String) = some "a@x.com" ∨ "b@y.com" ∈ ["b@y.com"] ∨
      "b@y.com" ∈ ([] : List String)) ∧
    ("b@y.com" ≠ "" ∧ pyEndsWith "b@y.com" "@futureelectronics.com" = false) ∧
    ∃ enumP, ValidEnum enumP ∧
      ∃ rest, externalParticipants enumP (some "a@x.com") ["b@y.com"] [] = "b@y.com" :: rest :=
  ⟨Or.inr (Or.inl (by decide)), by decide,
    primary_external_first_in_iteration_order.2 (some "a@x.com") ["b@y.com"] [] "b@y.com"
      (Or.inr (Or.inl (by decide))) (by decide)⟩

/-- C3 counterexample: under the valid set-iteration order `revEnumP`, a
message whose sender `a@x.com` is external and whose To-recipient `b@y.com`
is also external selects `b@y.com` — not the sender — as the primary external
address, and its domain differs from the sender's domain; the code takes
`external_emails[0]` with no sender preference, so the claimed sender-first
rule fails. -/
theorem primary_external_ignores_sender_cex :
    ValidEnum revEnumP ∧
    ("a@x.com" ≠ "" ∧ pyEndsWith "a@x.com" "@futureelectronics.com" = false) ∧
    externalParticipants revEnumP (some "a@x.com") ["b@y.com"] [] = ["b@y.com", "a@x.com"] ∧
    extract_domain (some "b@y.com") ≠ extract_domain (some "a@x.com") :=
  ⟨validEnum_revEnumP, by decide, by decide, by decide⟩

theorem flushBatch_fields (p : ParserState) :
    (flushBatch p).processed = p.processed ∧ (flushBatch p).errors = p.errors ∧
    (flushBatch p).supabase = p.supabase ∧ (flushBatch p).batch_size = p.batch_size ∧
    (flushBatch p).import_id = p.import_id := by
  unfold flushBatch
  by_cases h : p.batch.isEmpty
  · simp [h]
  · simp only [h, Bool.false_eq_true, if_false]
    cases hs : p.supabase with
    | none => simp [hs]
    | some st =>
      cases hr : st.emailsUpsert p.batch with
      | ok u => simp [hs, hr]
      | error e => simp [hs, hr]

theorem flushBatch_batch (p : ParserState) :
    (flushBatch p).batch = p.batch ∨ (flushBatch p).batch = [] := by
  unfold flushBatch
  by_cases h : p.batch.isEmpty
  · simp [h]
  · simp only [h, Bool.false_eq_true, if_false]
    cases hs : p.supabase with
    | none => exact Or.inl rfl
    | some st =>
      cases hr : st.emailsUpsert p.batch with
      | ok u => exact Or.inr (by simp [hr])
      | error e => exact Or.inr (by simp [hr])

theorem flushBatch_clears (p : ParserState) (st : Storage) (h : p.supabase = some st) :
    (flushBatch p).batch = [] := by
  unfold flushBatch
  by_cases hb : p.batch.isEmpty
  · simp [hb, List.isEmpty_iff.mp hb]
  · simp only [hb, Bool.false_eq_true, if_false, h]
    cases hr : st.emailsUpsert p.batch with
    | ok u => simp [hr]
    | error e => simp [hr]

theorem processMessage_stats (dg : Digests) (env : PyEnv) (p : ParserState)
    (msg : PffMessage) (path : String) :
    (processMessage dg env p msg path).processed = p.processed + 1 ∧
    (processMessage dg env p msg path).errors = p.errors ∧
    (processMessage dg env p msg path).supabase = p.supabase ∧
    (processMessage dg env p msg path).batch_size = p.batch_size ∧
    (processMessage dg env p msg path).import_id = p.import_id := by
  simp only [processMessage]
  split <;> simp [flushBatch_fields]

theorem entityPhase2_some (st : Storage) (i : Nat) (se : Option String) (sn : String)
    (ext : List String) (tid subj : String) (sa : Option String) :
    entityPhase2 st (some i) se sn ext tid subj sa = some i := by
  unfold entityPhase2
  by_cases hi : i = 0
  · simp [hi]
  · simp only [hi, if_false]
    cases hc : (match se with
        | some s => if s ≠ "" ∧ s ∈ ext then st.contactUpsert s i sn else Except.ok ()
        | none => Except.ok ()) with
    | error e => rfl
    | ok u =>
      cases ht : st.threadUpsert tid subj i sa with
      | error e => rfl
      | ok u' => rfl

theorem entityLink_select_error (st : Storage) (domain : String) (se : Option String)
    (sn : String) (ext : List String) (tid subj : String) (sa : Option String) (e : String)
    (h : st.compSelect domain = Except.error e) :
    entityLink st domain se sn ext tid subj sa = none := by
  unfold entityLink
  rw [h]

theorem entityLink_select_ok (st : Storage) (domain : String) (se : Option String)
    (sn : String) (ext : List String) (tid subj : String) (sa : Option String)
    (i : Nat) (rest : List Nat) (h : st.compSelect domain = Except.ok (i :: rest)) :
    entityLink st domain se sn ext tid subj sa = some i := by
  unfold entityLink
  rw [h]
  exact entityPhase2_some st i se sn ext tid subj sa

/-- C2 (amended): every entity-resolution error is caught and the message is
still appended (then possibly flushed) and counted; when the failure occurs in
the company lookup, before an id is assigned, the resulting
`related_company_id` is null, but when the company lookup resolved an id and a
later contact/thread upsert fails, the record keeps the resolved id. -/
theorem entity_error_never_blocks_buffering :
    (∀ (dg : Digests) (env : PyEnv) (p : ParserState) (msg : PffMessage) (path : String),
      (processMessage dg env p msg path).processed = p.processed + 1 ∧
      ((processMessage dg env p msg path).batch
          = p.batch ++ [buildRecord dg env p.supabase p.import_id msg path] ∨
        (processMessage dg env p msg path).batch = [])) ∧
    (∀ (st : Storage) (domain : String) (se : Option String) (sn : String)
      (ext : List String) (tid subj : String) (sa : Option String) (e : String),
      st.compSelect domain = Except.error e →
      entityLink st domain se sn ext tid subj sa = none) ∧
    (∀ (st : Storage) (domain : String) (se : Option String) (sn : String)
      (ext : List String) (tid subj : String) (sa : Option String) (i : Nat)
      (rest : List Nat),
      st.compSelect domain = Except.ok (i :: rest) →
      entityLink st domain se sn ext tid subj sa = some i) := by
  refine ⟨?_, ?_, ?_⟩
  · intro dg env p msg path
    refine ⟨(processMessage_stats dg env p msg path).1, ?_⟩
    simp only [processMessage]
    split
    · rcases flushBatch_batch
          { p with
            batch := p.batch ++ [buildRecord dg env p.supabase p.import_id msg path],
            processed := p.processed + 1 } with hb | hb
      · exact Or.inl (by rw [hb])
      · exact Or.inr hb
    · exact Or.inl rfl
  · intro st domain se sn ext tid subj sa e h
    exact entityLink_select_error st domain se sn ext tid subj sa e h
  · intro st domain se sn ext tid subj sa i rest h
    exact entityLink_select_ok st domain se sn ext tid subj sa i rest h

theorem entity_error_never_blocks_buffering_witness :
    wStorageSelectFail.compSelect "nissan.com" = Except.error "storage unavailable" ∧
    entityLink wStorageSelectFail "nissan.com" (some "sales@nissan.com") "Sales Person"
      ["sales@nissan.com", "carl@nissan.com"] "quote for lcd" "Re: Quote for LCD" none
      = none ∧
    wStorageOk.compSelect "nissan.com" = Except.ok [7] ∧
    entityLink wStorageOk "nissan.com" (some "sales@nissan.com") "Sales Person"
      ["sales@nissan.com", "carl@nissan.com"] "quote for lcd" "Re: Quote for LCD" none
      = some 7 :=
  ⟨rfl,
    entity_error_never_blocks_buffering.2.1 wStorageSelectFail "nissan.com"
      (some "sales@nissan.com") "Sales Person" ["sales@nissan.com", "carl@nissan.com"]
      "quote for lcd" "Re: Quote for LCD" none "storage unavailable" rfl,
    rfl,
    entity_error_never_blocks_buffering.2.2 wStorageOk "nissan.com"
      (some "sales@nissan.com") "Sales Person" ["sales@nissan.com", "carl@nissan.com"]
      "quote for lcd" "Re: Quote for LCD" none 7 [] rfl⟩

/-- C2 counterexample: with a storage oracle whose company lookup succeeds
(id 7) but whose thread upsert raises, an entity-resolution error occurs for
`wMsg`, the message is still buffered, yet its `related_company_id` is
`some 7`, not null — refuting the claim that the record always proceeds with
a null company link after an entity-resolution error. -/
theorem entity_error_keeps_company_id_cex :
    wStorageThreadFail.threadUpsert "quote for lcd" "Re: Quote for LCD" 7 none
      = Except.error "storage unavailable" ∧
    (buildRecord wDigests wEnv (some wStorageThreadFail) none wMsg "Root").related_company_id
      = some 7 ∧
    (processMessage wDigests wEnv (initParser none (some wStorageThreadFail)) wMsg
        "Root").batch
      = [buildRecord wDigests wEnv (some wStorageThreadFail) none wMsg "Root"] :=
  ⟨rfl, by decide, by decide⟩

theorem parseFolderStep_stats (dg : Digests) (env : PyEnv) (path : String)
    (p : ParserState) (msg : PffMessage) :
    ((parseFolderStep dg env path p msg).processed
        = p.processed + (if msg.broken then 0 else 1)) ∧
    ((parseFolderStep dg env path p msg).errors
        = p.errors + (if msg.broken then 1 else 0)) ∧
    (parseFolderStep dg env path p msg).supabase = p.supabase ∧
    (parseFolderStep dg env path p msg).batch_size = p.batch_size := by
  unfold parseFolderStep processMessageE
  by_cases h : msg.broken
  · simp [h]
  · obtain ⟨h1, h2, h3, h4, _⟩ := processMessage_stats dg env p msg path
    simp [h, h1, h2, h3, h4]

theorem foldl_step_stats (dg : Digests) (env : PyEnv) (path : String) :
    ∀ (msgs : List PffMessage) (p : ParserState),
      ((msgs.foldl (parseFolderStep dg env path) p).processed
          = p.processed + (msgs.filter (fun m => ¬ m.broken)).length) ∧
      ((msgs.foldl (parseFolderStep dg env path) p).errors
          = p.errors + (msgs.filter (fun m => m.broken)).length) ∧
      (msgs.foldl (parseFolderStep dg env path) p).supabase = p.supabase ∧
      (msgs.foldl (parseFolderStep dg env path) p).batch_size = p.batch_size := by
  intro msgs
  induction msgs with
  | nil => intro p; simp
  | cons m ms ih =>
    intro p
    obtain ⟨i1, i2, i3, i4⟩ := ih (parseFolderStep dg env path p m)
    obtain ⟨h1, h2, h3, h4⟩ := parseFolderStep_stats dg env path p m
    simp only [List.foldl_cons, List.filter_cons]
    by_cases hm : m.broken
    · refine ⟨?_, ?_, by rw [i3, h3], by rw [i4, h4]⟩
      · rw [i1, h1]; simp [hm]
      · rw [i2, h2]; simp [hm]; omega
    · refine ⟨?_, ?_, by rw [i3, h3], by rw [i4, h4]⟩
      · rw [i1, h1]; simp [hm]; omega
      · rw [i2, h2]; simp [hm]

mutual
theorem parseFolder_stats (dg : Digests) (env : PyEnv) (f : PffFolder) :
    ∀ (p : ParserState) (path : String),
      ((parseFolder dg env p f path).processed = p.processed + goodCount f) ∧
      ((parseFolder dg env p f path).errors = p.errors + brokenCount f) ∧
      (parseFolder dg env p f path).supabase = p.supabase ∧
      (parseFolder dg env p f path).batch_size = p.batch_size :=
  match f with
  | .mk name msgs subs => fun p path => by
    simp only [parseFolder]
    obtain ⟨f1, f2, f3, f4⟩ := foldl_step_stats dg env path msgs p
    obtain ⟨s1, s2, s3, s4⟩ :=
      parseFolders_stats dg env subs (msgs.foldl (parseFolderStep dg env path) p) path
    refine ⟨?_, ?_, by rw [s3, f3], by rw [s4, f4]⟩
    · rw [s1, f1]; simp only [goodCount]; omega
    · rw [s2, f2]; simp only [brokenCount]; omega

theorem parseFolders_stats (dg : Digests) (env : PyEnv) (fs : PffFolderList) :
    ∀ (p : ParserState) (path : String),
      ((parseFolders dg env p fs path).processed = p.processed + goodCountList fs) ∧
      ((parseFolders dg env p fs path).errors = p.errors + brokenCountList fs) ∧
      (parseFolders dg env p fs path).supabase = p.supabase ∧
      (parseFolders dg env p fs path).batch_size = p.batch_size :=
  match fs with
  | .nil => fun p path => by
    simp [parseFolders, goodCountList, brokenCountList]
  | .cons f rest => fun p path => by
    cases f with
    | mk n msgs2 subs2 =>
      obtain ⟨h1, h2, h3, h4⟩ :=
        parseFolder_stats dg env (.mk n msgs2 subs2) p (path ++ "/" ++ n)
      obtain ⟨g1, g2, g3, g4⟩ :=
        parseFolders_stats dg env rest
          (parseFolder dg env p (.mk n msgs2 subs2) (path ++ "/" ++ n)) path
      simp only [parseFolders]
      refine ⟨?_, ?_, by rw [g3, h3], by rw [g4, h4]⟩
      · rw [g1, h1]; simp only [goodCountList]; omega
      · rw [g2, h2]; simp only [brokenCountList]; omega
end

/-- C8: per-message error isolation: a run over any folder tree always
completes, processing every non-failing message and counting every failing
one in the error tally — the returned stats are exactly the initial counts
plus the number of good messages and the number of raising messages in the
whole tree, so one failing message never halts traversal of the rest. -/
theorem parse_counts_messages_and_errors :
    ∀ (dg : Digests) (env : PyEnv) (p : ParserState) (f : PffFolder),
      (parse dg env p (some f)).processed = p.processed + goodCount f ∧
      (parse dg env p (some f)).errors = p.errors + brokenCount f ∧
      (parse dg env p none).processed = p.processed ∧
      (parse dg env p none).errors = p.errors := by
  intro dg env p f
  unfold parse
  obtain ⟨h1, h2, _, _⟩ := parseFolder_stats dg env f p "Root"
  obtain ⟨g1, g2, _, _, _⟩ := flushBatch_fields (parseFolder dg env p f "Root")
  obtain ⟨k1, k2, _, _, _⟩ := flushBatch_fields p
  exact ⟨by rw [g1, h1], by rw [g2, h2], k1, k2⟩

theorem processMessage_batch_cases (dg : Digests) (env : PyEnv) (p : ParserState)
    (msg : PffMessage) (path : String) (st : Storage) (hsb : p.supabase = some st) :
    (p.batch_size ≤ p.batch.length + 1 → (processMessage dg env p msg path).batch = []) ∧
    (¬ p.batch_size ≤ p.batch.length + 1 →
      (processMessage dg env p msg path).batch
        = p.batch ++ [buildRecord dg env p.supabase p.import_id msg path]) := by
  simp only [processMessage]
  constructor
  · intro hle
    rw [if_pos (by simpa using hle)]
    exact flushBatch_clears _ st hsb
  · intro hlt
    rw [if_neg (by simpa using hlt)]

theorem processMessage_inv (dg : Digests) (env : PyEnv) (p : ParserState)
    (msg : PffMessage) (path : String) (st : Storage) (hsb : p.supabase = some st)
    (hbs : 1 ≤ p.batch_size) (hlen : p.batch.length < p.batch_size) :
    (processMessage dg env p msg path).batch.length < p.batch_size := by
  obtain ⟨hc1, hc2⟩ := processMessage_batch_cases dg env p msg path st hsb
  by_cases h : p.batch_size ≤ p.batch.length + 1
  · rw [hc1 h]; simpa using hbs
  · rw [hc2 h]; simp only [List.length_append, List.length_cons, List.length_nil]; omega

theorem parseFolderStep_inv (dg : Digests) (env : PyEnv) (path : String)
    (p : ParserState) (msg : PffMessage) (st : Storage) (hsb : p.supabase = some st)
    (hbs : 1 ≤ p.batch_size) (hlen : p.batch.length < p.batch_size) :
    (parseFolderStep dg env path p msg).batch.length < p.batch_size := by
  unfold parseFolderStep processMessageE
  by_cases h : msg.broken
  · simpa [h] using hlen
  · simpa [h] using processMessage_inv dg env p msg path st hsb hbs hlen

theorem foldl_step_inv (dg : Digests) (env : PyEnv) (path : String) :
    ∀ (msgs : List PffMessage) (p : ParserState) (st : Storage),
      p.supabase = some st → 1 ≤ p.batch_size → p.batch.length < p.batch_size →
      (msgs.foldl (parseFolderStep dg env path) p).batch.length < p.batch_size := by
  intro msgs
  induction msgs with
  | nil => intro p st _ _ hlen; simpa using hlen
  | cons m ms ih =>
    intro p st hsb hbs hlen
    obtain ⟨_, _, h3, h4⟩ := parseFolderStep_stats dg env path p m
    have hstep := parseFolderStep_inv dg env path p m st hsb hbs hlen
    have := ih (parseFolderStep dg env path p m) st (by rw [h3, hsb])
      (by rw [h4]; exact hbs) (by rw [h4]; exact hstep)
    simpa [h4] using this

mutual
theorem parseFolder_inv (dg : Digests) (env : PyEnv) (f : PffFolder) :
    ∀ (p : ParserState) (path : String) (st : Storage),
      p.supabase = some st → 1 ≤ p.batch_size → p.batch.length < p.batch_size →
      (parseFolder dg env p f path).batch.length < p.batch_size :=
  match f with
  | .mk name msgs subs => fun p path st hsb hbs hlen => by
    simp only [parseFolder]
    obtain ⟨_, _, f3, f4⟩ := foldl_step_stats dg env path msgs p
    have hmid := foldl_step_inv dg env path msgs p st hsb hbs hlen
    have := parseFolders_inv dg env subs (msgs.foldl (parseFolderStep dg env path) p) path
      st (by rw [f3, hsb]) (by rw [f4]; exact hbs) (by rw [f4]; exact hmid)
    obtain ⟨_, _, _, s4⟩ :=
      parseFolders_stats dg env subs (msgs.foldl (parseFolderStep dg env path) p) path
    rw [f4] at this
    exact this

theorem parseFolders_inv (dg : Digests) (env : PyEnv) (fs : PffFolderList) :
    ∀ (p : ParserState) (path : String) (st : Storage),
      p.supabase = some st → 1 ≤ p.batch_size → p.batch.length < p.batch_size →
      (parseFolders dg env p fs path).batch.length < p.batch_size :=
  match fs with
  | .nil => fun p path st _ _ hlen => by simpa [parseFolders] using hlen
  | .cons f rest => fun p path st hsb hbs hlen => by
    cases f with
    | mk n msgs2 subs2 =>
      simp only [parseFolders]
      obtain ⟨_, _, h3, h4⟩ :=
        parseFolder_stats dg env (.mk n msgs2 subs2) p (path ++ "/" ++ n)
      have hmid := parseFolder_inv dg env (.mk n msgs2 subs2) p (path ++ "/" ++ n) st
        hsb hbs hlen
      have := parseFolders_inv dg env rest
        (parseFolder dg env p (.mk n msgs2 subs2) (path ++ "/" ++ n)) path st
        (by rw [h3, hsb]) (by rw [h4]; exact hbs) (by rw [h4]; exact hmid)
      rw [h4] at this
      exact this
end

/-- C9 (amended): when a storage client is configured and the threshold is at
least 1, the buffer obeys the batching discipline: an append fills the buffer
to at most the threshold and triggers a flush exactly when the threshold is
reached, every flush empties the buffer even when the bulk upsert fails, the
invariant "buffer below threshold" is preserved across whole folder trees, and
the final flush leaves the buffer empty after `parse` returns. -/
theorem buffer_invariant_with_storage :
    ∀ (dg : Digests) (env : PyEnv) (st : Storage) (p : ParserState),
      p.supabase = some st → 1 ≤ p.batch_size →
      ((∀ (msg : PffMessage) (path : String), p.batch.length < p.batch_size →
          ((p.batch ++ [buildRecord dg env p.supabase p.import_id msg path]).length
              ≤ p.batch_size ∧
           (processMessage dg env p msg path).batch.length < p.batch_size ∧
           (p.batch_size ≤ p.batch.length + 1 →
             (processMessage dg env p msg path).batch = []) ∧
           (¬ p.batch_size ≤ p.batch.length + 1 →
             (processMessage dg env p msg path).batch
               = p.batch ++ [buildRecord dg env p.supabase p.import_id msg path]))) ∧
       (flushBatch p).batch = [] ∧
       (∀ (f : PffFolder) (path : String), p.batch.length < p.batch_size →
          (parseFolder dg env p f path).batch.length < p.batch_size) ∧
       (∀ root : Option PffFolder, p.batch.length < p.batch_size →
          (parse dg env p root).batch = [])) := by
  intro dg env st p hsb hbs
  refine ⟨?_, flushBatch_clears p st hsb, ?_, ?_⟩
  · intro msg path hlen
    obtain ⟨hc1, hc2⟩ := processMessage_batch_cases dg env p msg path st hsb
    refine ⟨?_, processMessage_inv dg env p msg path st hsb hbs hlen, hc1, hc2⟩
    simp only [List.length_append, List.length_cons, List.length_nil]
    omega
  · intro f path hlen
    exact parseFolder_inv dg env f p path st hsb hbs hlen
  · intro root hlen
    cases root with
    | none => exact flushBatch_clears p st hsb
    | some f =>
      unfold parse
      obtain ⟨_, _, h3, _⟩ := parseFolder_stats dg env f p "Root"
      exact flushBatch_clears _ st (by rw [h3, hsb])

theorem buffer_invariant_with_storage_witness :
    (initParser none (some wStorageOk) 2).supabase = some wStorageOk ∧
    1 ≤ (initParser none (some wStorageOk) 2).batch_size ∧
    (initParser none (some wStorageOk) 2).batch.length
      < (initParser none (some wStorageOk) 2).batch_size ∧
    (parse wDigests wEnv (initParser none (some wStorageOk) 2)
        (some (.mk "r" [wMsg, wMsgT, wMsg] .nil))).batch = [] :=
  ⟨rfl, by decide, by decide,
    ((buffer_invariant_with_storage wDigests wEnv wStorageOk
        (initParser none (some wStorageOk) 2) rfl (by decide)).2.2.2
      (some (.mk "r" [wMsg, wMsgT, wMsg] .nil)) (by decide))⟩

/-- C9 counterexample: when no storage client is configured, `_flush_batch`
returns without clearing, so after a run with threshold 1 over two messages
the buffer still holds both records: it exceeds the configured threshold and
is not empty after `parse` returns — refuting the claim's unconditional
buffer bound and final emptiness. -/
theorem buffer_not_cleared_without_storage_cex :
    (initParser none none 1).supabase = none ∧
    (parse wDigests wEnv (initParser none none 1)
        (some (.mk "r" [wMsg, wMsgT] .nil))).batch_size
      < (parse wDigests wEnv (initParser none none 1)
          (some (.mk "r" [wMsg, wMsgT] .nil))).batch.length ∧
    (parse wDigests wEnv (initParser none none 1)
        (some (.mk "r" [wMsg, wMsgT] .nil))).batch ≠ [] :=
  ⟨rfl, by decide, by decide⟩

theorem upsert_cons (t : List EmailRecord) (r : EmailRecord) (b : List EmailRecord) :
    upsertEmailsIgnoreDups t (r :: b)
      = upsertEmailsIgnoreDups
          (if r.dedupe_hash ∈ t.map EmailRecord.dedupe_hash then t else t ++ [r]) b := rfl

theorem tableHashes_append (t u : List EmailRecord) :
    tableHashes (t ++ u) = tableHashes t ++ tableHashes u := by
  simp [tableHashes]

theorem upsert_exists_append :
    ∀ (b t : List EmailRecord), ∃ new, upsertEmailsIgnoreDups t b = t ++ new := by
  intro b
  induction b with
  | nil => intro t; exact ⟨[], by simp [upsertEmailsIgnoreDups]⟩
  | cons r b' ih =>
    intro t
    rw [upsert_cons]
    by_cases h : r.dedupe_hash ∈ t.map EmailRecord.dedupe_hash
    · rw [if_pos h]; exact ih t
    · rw [if_neg h]
      obtain ⟨new, hnew⟩ := ih (t ++ [r])
      exact ⟨[r] ++ new, by rw [hnew, List.append_assoc]⟩

theorem mem_tableHashes_upsert (b t : List EmailRecord) {x : String}
    (h : x ∈ tableHashes t) : x ∈ tableHashes (upsertEmailsIgnoreDups t b) := by
  obtain ⟨new, hnew⟩ := upsert_exists_append b t
  rw [hnew, tableHashes_append]
  exact List.mem_append_left _ h

theorem upsert_covered_eq :
    ∀ (b t : List EmailRecord), (∀ r ∈ b, r.dedupe_hash ∈ tableHashes t) →
      upsertEmailsIgnoreDups t b = t := by
  intro b
  induction b with
  | nil => intro t _; rfl
  | cons r b' ih =>
    intro t hcov
    rw [upsert_cons, if_pos (show r.dedupe_hash ∈ List.map EmailRecord.dedupe_hash t from
      hcov r (List.mem_cons_self r b'))]
    exact ih t (fun r' hr' => hcov r' (List.mem_cons_of_mem r hr'))

theorem upsert_batch_covered :
    ∀ (b t : List EmailRecord) (r : EmailRecord), r ∈ b →
      r.dedupe_hash ∈ tableHashes (upsertEmailsIgnoreDups t b) := by
  intro b
  induction b with
  | nil => intro t r hr; exact absurd hr (List.not_mem_nil r)
  | cons q b' ih =>
    intro t r hr
    rw [upsert_cons]
    rcases List.mem_cons.mp hr with h | h
    · subst h
      by_cases hq : r.dedupe_hash ∈ t.map EmailRecord.dedupe_hash
      · rw [if_pos hq]; exact mem_tableHashes_upsert b' t hq
      · rw [if_neg hq]
        apply mem_tableHashes_upsert b' (t ++ [r])
        rw [tableHashes_append]
        exact List.mem_append_right _ (by simp [tableHashes])
    · by_cases hq : q.dedupe_hash ∈ t.map EmailRecord.dedupe_hash
      · rw [if_pos hq]; exact ih t r h
      · rw [if_neg hq]; exact ih (t ++ [q]) r h

theorem upsert_nodup :
    ∀ (b t : List EmailRecord), (tableHashes t).Nodup →
      (tableHashes (upsertEmailsIgnoreDups t b)).Nodup := by
  intro b
  induction b with
  | nil => intro t h; exact h
  | cons r b' ih =>
    intro t hnd
    rw [upsert_cons]
    by_cases hq : r.dedupe_hash ∈ t.map EmailRecord.dedupe_hash
    · rw [if_pos hq]; exact ih t hnd
    · rw [if_neg hq]
      refine ih (t ++ [r]) ?_
      rw [tableHashes_append]
      refine List.Nodup.append hnd (by simp [tableHashes]) ?_
      intro x hx hx2
      have : x = r.dedupe_hash := by simpa [tableHashes] using hx2
      exact hq (this ▸ hx)

theorem runFlushes_cons (T : List EmailRecord) (b : List EmailRecord)
    (Bs : List (List EmailRecord)) :
    runFlushes T (b :: Bs) = runFlushes (upsertEmailsIgnoreDups T b) Bs := rfl

theorem runFlushes_exists_append :
    ∀ (Bs : List (List EmailRecord)) (T : List EmailRecord),
      ∃ new, runFlushes T Bs = T ++ new := by
  intro Bs
  induction Bs with
  | nil => intro T; exact ⟨[], by simp [runFlushes]⟩
  | cons b Bs' ih =>
    intro T
    rw [runFlushes_cons]
    obtain ⟨n1, h1⟩ := upsert_exists_append b T
    obtain ⟨n2, h2⟩ := ih (upsertEmailsIgnoreDups T b)
    exact ⟨n1 ++ n2, by rw [h2, h1, List.append_assoc]⟩

theorem mem_tableHashes_runFlushes (Bs : List (List EmailRecord)) (T : List EmailRecord)
    {x : String} (h : x ∈ tableHashes T) : x ∈ tableHashes (runFlushes T Bs) := by
  obtain ⟨new, hnew⟩ := runFlushes_exists_append Bs T
  rw [hnew, tableHashes_append]
  exact List.mem_append_left _ h

theorem runFlushes_covered_eq :
    ∀ (Bs : List (List EmailRecord)) (T : List EmailRecord),
      (∀ b ∈ Bs, ∀ r ∈ b, r.dedupe_hash ∈ tableHashes T) → runFlushes T Bs = T := by
  intro Bs
  induction Bs with
  | nil => intro T _; rfl
  | cons b Bs' ih =>
    intro T hcov
    have hb : upsertEmailsIgnoreDups T b = T :=
      upsert_covered_eq b T (hcov b (List.mem_cons_self b Bs'))
    rw [runFlushes_cons, hb]
    exact ih T (fun b' hb' => hcov b' (List.mem_cons_of_mem b hb'))

theorem runFlushes_batches_covered :
    ∀ (Bs : List (List EmailRecord)) (T : List EmailRecord) (b : List EmailRecord)
      (r : EmailRecord), b ∈ Bs → r ∈ b →
      r.dedupe_hash ∈ tableHashes (runFlushes T Bs) := by
  intro Bs
  induction Bs with
  | nil => intro T b r hb _; exact absurd hb (List.not_mem_nil b)
  | cons b0 Bs' ih =>
    intro T b r hb hr
    rw [runFlushes_cons]
    rcases List.mem_cons.mp hb with h | h
    · subst h
      exact mem_tableHashes_runFlushes Bs' _ (upsert_batch_covered b T r hr)
    · exact ih (upsertEmailsIgnoreDups T b0) b r h hr

theorem runFlushes_nodup :
    ∀ (Bs : List (List EmailRecord)) (T : List EmailRecord),
      (tableHashes T).Nodup → (tableHashes (runFlushes T Bs)).Nodup := by
  intro Bs
  induction Bs with
  | nil => intro T h; exact h
  | cons b Bs' ih =>
    intro T hnd
    rw [runFlushes_cons]
    exact ih (upsertEmailsIgnoreDups T b) (upsert_nodup b T hnd)

/-- C1: re-ingestion is idempotent under the ignore-duplicate upsert keyed by
`dedupe_hash`: a run's flushes only append rows whose hashes are new
(pre-existing rows are untouched), replaying the same flush sequence — or any
sequence whose hashes are already present, as with an overlapping archive —
leaves the table exactly as after the first run, and a table with distinct
hashes keeps distinct hashes, so no duplicate rows ever arise. -/
theorem flush_upsert_idempotent :
    ∀ (T : List EmailRecord) (Bs : List (List EmailRecord)),
      (∃ new, runFlushes T Bs = T ++ new) ∧
      (runFlushes (runFlushes T Bs) Bs = runFlushes T Bs) ∧
      (∀ Bs' : List (List EmailRecord),
        (∀ b ∈ Bs', ∀ r ∈ b, r.dedupe_hash ∈ tableHashes (runFlushes T Bs)) →
        runFlushes (runFlushes T Bs) Bs' = runFlushes T Bs) ∧
      ((tableHashes T).Nodup → (tableHashes (runFlushes T Bs)).Nodup) := by
  intro T Bs
  refine ⟨runFlushes_exists_append Bs T, ?_, ?_, runFlushes_nodup Bs T⟩
  · exact runFlushes_covered_eq Bs (runFlushes T Bs)
      (fun b hb r hr => runFlushes_batches_covered Bs T b r hb hr)
  · intro Bs' hcov
    exact runFlushes_covered_eq Bs' (runFlushes T Bs) hcov

theorem flush_upsert_idempotent_witness :
    (∀ b ∈ [[mkRec "h1", mkRec "h2"]], ∀ r ∈ b,
        r.dedupe_hash ∈ tableHashes (runFlushes [] [[mkRec "h1", mkRec "h2"]])) ∧
    runFlushes (runFlushes [] [[mkRec "h1", mkRec "h2"]]) [[mkRec "h1", mkRec "h2"]]
      = runFlushes [] [[mkRec "h1", mkRec "h2"]] ∧
    (tableHashes ([] : List EmailRecord)).Nodup ∧
    (tableHashes (runFlushes [] [[mkRec "h1", mkRec "h2"]])).Nodup :=
  ⟨by decide,
    (flush_upsert_idempotent [] [[mkRec "h1", mkRec "h2"]]).2.2.1
      [[mkRec "h1", mkRec "h2"]] (by decide),
    by decide,
    (flush_upsert_idempotent [] [[mkRec "h1", mkRec "h2"]]).2.2.2 (by decide)⟩
